import Mathlib

/-
Verification development for the gerbil mesh-VPN supervisor.

The definitions below are a shallow embedding of the Go source:
  - `tailscale/client.go`: the Tailscale client (`Status`, `GetPeerTraffic`),
  - `main.go`: the bandwidth accounting cycle (`calculatePeerBandwidth`),
    the peer-change notifier (`notifyPeerChange`), the `/status` HTTP handler
    (`handleStatus`), and the remote-config retry loop in `main`.

Modelling conventions:
  - Go `int64` counters are modelled as `Int`.  The claims under study range
    over counter values where Go's two's-complement arithmetic coincides with
    unbounded integer arithmetic (non-negative counters below 2^63), so no
    wraparound is modelled.
  - Go `float64` report fields are modelled as `Rat`.  The operations the code
    performs on them (conversion of an int64 difference, division by the exact
    power of two 1024*1024) are exact in binary64 over the counters' range, so
    rational arithmetic is a faithful model.
  - `time.Time` values are modelled as `Int` nanosecond timestamps; Go's
    `a.Sub(b).Seconds() > 0` holds exactly when the `Int` difference is
    positive.
  - The global `lastReadings map[string]PeerReading` is modelled as an
    association list passed in and returned explicitly; the `mu` mutex
    serialises the cycle, so one cycle is a pure function of (snapshot,
    cache, now).
  - `tsClient.Status()` / `GetPeerTraffic` both shell out to the same
    `tailscale status --json` command; within one accounting cycle the
    provider is modelled as returning one fixed snapshot.
  - Outbound `notifyPeerChange` invocations performed during a cycle are
    recorded in an explicit event list (`notifyCalls`); the source's
    `calculatePeerBandwidth` contains no call to `notifyPeerChange`, so the
    embedded cycle appends nothing to it.
-/

namespace Gerbil

/-- `PeerInfo` from `tailscale/client.go`: one peer of the mesh snapshot. -/
structure PeerInfo where
  publicKey : String
  hostname : String
  tailscaleIPs : String
  allowedIPs : List String
  online : Bool
  rxBytes : Int
  txBytes : Int
deriving Repr, DecidableEq

/-- `Status` from `tailscale/client.go`: login flag, optional self info
(a nil-able pointer in Go, hence `Option`), and the peer list. -/
structure Status where
  loggedIn : Bool
  self : Option PeerInfo
  peers : List PeerInfo
deriving Repr, DecidableEq

/-- `Client.Status()` when the `tailscale` CLI command fails
(`tailscale/client.go` lines 42-47): a minimal status with `Self = nil`
is returned together with a nil error. -/
def statusOnCommandFailure : Status :=
  { loggedIn := false, self := none, peers := [] }

/-- `Client.GetPeerTraffic` from `tailscale/client.go`: re-query the status
(`none` models a command or parse failure, returning zeros), scan the peer
map for the first entry with the requested public key and return its
counters, or zeros when no peer matches. -/
def getPeerTraffic (status : Option Status) (publicKey : String) : Int × Int :=
  match status with
  | none => (0, 0)
  | some st =>
    match st.peers.find? (fun p => p.publicKey == publicKey) with
    | some p => (p.rxBytes, p.txBytes)
    | none => (0, 0)

/-- `PeerReading` from `main.go`: cached counters plus observation time. -/
structure PeerReading where
  bytesReceived : Int
  bytesTransmitted : Int
  lastChecked : Int
deriving Repr, DecidableEq

/-- The global `lastReadings map[string]PeerReading`, as an association list. -/
abbrev ReadingCache := List (String × PeerReading)

/-- Map lookup `lastReadings[publicKey]`. -/
def cacheLookup (c : ReadingCache) (k : String) : Option PeerReading :=
  match c.find? (fun e => e.1 == k) with
  | some e => some e.2
  | none => none

/-- Map store `lastReadings[publicKey] = reading`. -/
def cacheInsert (c : ReadingCache) (k : String) (v : PeerReading) : ReadingCache :=
  (k, v) :: c.filter (fun e => !(e.1 == k))

/-- The pruning pass of `calculatePeerBandwidth` (`main.go` lines 836-845):
delete every cache key that is not among the snapshot's peer keys. -/
def cachePrune (c : ReadingCache) (keys : List String) : ReadingCache :=
  c.filter (fun e => keys.contains e.1)

/-- `PeerBandwidth` from `main.go`: one per-peer report of megabyte deltas. -/
structure PeerBandwidth where
  publicKey : String
  bytesIn : Rat
  bytesOut : Rat
deriving Repr, DecidableEq

/-- The per-peer body of the loop in `calculatePeerBandwidth`
(`main.go` lines 782-833), threading the (reports, cache) accumulator:
query the peer's current counters, diff against the cached reading when one
exists and the timestamp advanced (replacing a negative diff by the current
absolute counter), emit zero deltas on first sight, and always overwrite the
cache entry with the current reading. -/
def processPeer (st : Status) (now : Int) (acc : List PeerBandwidth × ReadingCache)
    (peer : PeerInfo) : List PeerBandwidth × ReadingCache :=
  let publicKey := peer.publicKey
  let traffic := getPeerTraffic (some st) publicKey
  let currentReading : PeerReading :=
    { bytesReceived := traffic.1, bytesTransmitted := traffic.2, lastChecked := now }
  match cacheLookup acc.2 publicKey with
  | some lastReading =>
    let timeDiff := now - lastReading.lastChecked
    if timeDiff > 0 then
      let bytesInDiff0 : Int := currentReading.bytesReceived - lastReading.bytesReceived
      let bytesOutDiff0 : Int := currentReading.bytesTransmitted - lastReading.bytesTransmitted
      let bytesInDiff : Int := if bytesInDiff0 < 0 then currentReading.bytesReceived else bytesInDiff0
      let bytesOutDiff : Int := if bytesOutDiff0 < 0 then currentReading.bytesTransmitted else bytesOutDiff0
      let bytesInMB : Rat := (bytesInDiff : Rat) / (1024 * 1024)
      let bytesOutMB : Rat := (bytesOutDiff : Rat) / (1024 * 1024)
      (acc.1 ++ [{ publicKey := publicKey, bytesIn := bytesInMB, bytesOut := bytesOutMB }],
       cacheInsert acc.2 publicKey currentReading)
    else
      (acc.1, cacheInsert acc.2 publicKey currentReading)
  | none =>
    (acc.1 ++ [{ publicKey := publicKey, bytesIn := 0, bytesOut := 0 }],
     cacheInsert acc.2 publicKey currentReading)

/-- The full outcome of one accounting cycle: the returned reports (or the
returned error), the cache state afterwards, and the `notifyPeerChange`
invocations performed during the cycle. -/
structure CycleOutcome where
  reports : Except String (List PeerBandwidth)
  cache : ReadingCache
  notifyCalls : List (String × String)
deriving Repr

/-- `calculatePeerBandwidth` from `main.go` (lines 770-848).  A provider
error returns early with an error and touches nothing.  Otherwise every
snapshot peer is processed in order, then cache keys absent from the
snapshot are pruned.  The source contains no call to `notifyPeerChange`,
so `notifyCalls` is empty in both branches. -/
def calculatePeerBandwidth (status : Except String Status) (cache : ReadingCache)
    (now : Int) : CycleOutcome :=
  match status with
  | .error e =>
    { reports := .error ("failed to get Tailscale status: " ++ e)
      cache := cache
      notifyCalls := [] }
  | .ok st =>
    let folded := st.peers.foldl (processPeer st now) ([], cache)
    let currentPeerKeys := st.peers.map PeerInfo.publicKey
    { reports := .ok folded.1
      cache := cachePrune folded.2 currentPeerKeys
      notifyCalls := [] }

/-- The HTTP request `notifyPeerChange` would POST. -/
structure NotifyRequest where
  url : String
  action : String
  publicKey : String
deriving Repr, DecidableEq

/-- `notifyPeerChange` from `main.go` (lines 875-901): with an empty
configured notify URL it returns without posting; otherwise it POSTs
`{action, publicKey}` to the notify URL (marshalling a map of two strings
never fails; the POST's outcome is only logged). -/
def notifyPeerChange (notifyURL action publicKey : String) : Option NotifyRequest :=
  if notifyURL = "" then none
  else some { url := notifyURL, action := action, publicKey := publicKey }

/-- The JSON body written by `handleStatus` on its success path. -/
structure SelfStatusView where
  loggedIn : Bool
  hostname : String
  tailscaleIPs : String
  publicKey : String
  online : Bool
  peerCount : Nat
deriving Repr, DecidableEq

/-- Possible outcomes of the `/status` handler: a 200 JSON view, an HTTP
error response, or a nil-pointer dereference fault (the handler crashes
before writing any response). -/
inductive HandlerOutcome where
  | ok (view : SelfStatusView)
  | httpError (code : Nat) (msg : String)
  | nilDeref
deriving Repr, DecidableEq

/-- `handleStatus` from `main.go` (lines 721-741): a provider error yields a
500; otherwise the response is built by dereferencing `status.Self` for its
hostname, IPs, public key and online flag with no nil check, so a status
with `Self = nil` faults. -/
def handleStatus (status : Except String Status) : HandlerOutcome :=
  match status with
  | .error e => .httpError 500 ("Failed to get Tailscale status: " ++ e)
  | .ok st =>
    match st.self with
    | none => .nilDeref
    | some self =>
      .ok { loggedIn := st.loggedIn
            hostname := self.hostname
            tailscaleIPs := self.tailscaleIPs
            publicKey := self.publicKey
            online := self.online
            peerCount := st.peers.length }

/-- `TailscaleConfig` from `main.go`. -/
structure TailscaleConfig where
  authKey : String
  controlURL : String
  hostname : String
  exitNode : String
  acceptRoutes : Bool
deriving Repr, DecidableEq

/-- Observable events of the remote-config loop: a fetch attempt, or a
`time.Sleep` of the given number of seconds. -/
inductive LoopEvent where
  | fetchAttempt
  | sleepSeconds (n : Nat)
deriving Repr, DecidableEq

/-- The remote-config acquisition loop of `main` (`main.go` lines 488-498),
driven by a list of fetch outcomes (`.error` models a transport or decode
failure of `loadRemoteConfig`, which then returns a zero config).  The loop
re-checks `tsconfig.AuthKey == ""`: a failure logs, sleeps 5 seconds and
retries; a fetched config with an empty auth key retries immediately; a
fetched config with a non-empty auth key exits the loop.  The result pairs
the emitted event trace with the obtained config (`none` when the supplied
outcomes are exhausted with the loop still running — there is no failure
ceiling and no fatal exit in the loop body). -/
def configRetryLoop : List (Except Unit TailscaleConfig) → List LoopEvent × Option TailscaleConfig
  | [] => ([], none)
  | .error _ :: rest =>
    let r := configRetryLoop rest
    (.fetchAttempt :: .sleepSeconds 5 :: r.1, r.2)
  | .ok cfg :: rest =>
    if cfg.authKey = "" then
      let r := configRetryLoop rest
      (.fetchAttempt :: r.1, r.2)
    else
      ([.fetchAttempt], some cfg)

/-- The reading `processPeer` writes to the cache for `peer` at time `now`. -/
def currentReadingOf (st : Status) (now : Int) (peer : PeerInfo) : PeerReading :=
  { bytesReceived := (getPeerTraffic (some st) peer.publicKey).1
    bytesTransmitted := (getPeerTraffic (some st) peer.publicKey).2
    lastChecked := now }

/-- The report `processPeer` emits for `peer` when the cache it sees is `c`:
`none` when the cached timestamp has not strictly advanced. -/
def peerReport (st : Status) (c : ReadingCache) (now : Int) (peer : PeerInfo) :
    Option PeerBandwidth :=
  let traffic := getPeerTraffic (some st) peer.publicKey
  match cacheLookup c peer.publicKey with
  | some lastReading =>
    if now - lastReading.lastChecked > 0 then
      let bytesInDiff0 : Int := traffic.1 - lastReading.bytesReceived
      let bytesOutDiff0 : Int := traffic.2 - lastReading.bytesTransmitted
      let bytesInDiff : Int := if bytesInDiff0 < 0 then traffic.1 else bytesInDiff0
      let bytesOutDiff : Int := if bytesOutDiff0 < 0 then traffic.2 else bytesOutDiff0
      some { publicKey := peer.publicKey
             bytesIn := (bytesInDiff : Rat) / (1024 * 1024)
             bytesOut := (bytesOutDiff : Rat) / (1024 * 1024) }
    else none
  | none => some { publicKey := peer.publicKey, bytesIn := 0, bytesOut := 0 }

theorem find?_filter_of_imp (l : List (String × PeerReading)) (p q : String × PeerReading → Bool)
    (h : ∀ e, p e = true → q e = true) : (l.filter q).find? p = l.find? p := by
  induction l with
  | nil => rfl
  | cons a t ih =>
    rw [List.filter_cons]
    cases hq : q a with
    | true =>
      rw [if_pos rfl]
      cases hp : p a with
      | true => rw [List.find?_cons_of_pos _ hp, List.find?_cons_of_pos _ hp]
      | false =>
        rw [List.find?_cons_of_neg _ (by simp [hp]), List.find?_cons_of_neg _ (by simp [hp]), ih]
    | false =>
      rw [if_neg (by simp)]
      have hp : p a = false := by
        cases hpa : p a
        · rfl
        · exact absurd (h a hpa) (by simp [hq])
      rw [ih, List.find?_cons_of_neg _ (by simp [hp])]

theorem cacheLookup_insert (c : ReadingCache) (k : String) (v : PeerReading) (x : String) :
    cacheLookup (cacheInsert c k v) x = if x = k then some v else cacheLookup c x := by
  by_cases h : x = k
  · subst h
    simp [cacheLookup, cacheInsert]
  · simp only [cacheLookup, cacheInsert, if_neg h]
    rw [List.find?_cons_of_neg _ (by simp; exact fun he => h he.symm)]
    rw [find?_filter_of_imp]
    intro e he
    have h1 : e.1 = x := by simpa using he
    simp [h1, h]

theorem cacheLookup_prune (c : ReadingCache) (keys : List String) (k : String) :
    cacheLookup (cachePrune c keys) k = if k ∈ keys then cacheLookup c k else none := by
  by_cases h : k ∈ keys
  · simp only [if_pos h, cacheLookup, cachePrune]
    rw [find?_filter_of_imp]
    intro e he
    have : e.1 = k := by simpa using he
    simp [this, h]
  · simp only [if_neg h, cacheLookup, cachePrune]
    rw [List.find?_eq_none.mpr]
    intro e he hpe
    have h1 : e.1 = k := by simpa using hpe
    have h2 : e.1 ∈ keys := by
      have := (List.mem_filter.mp he).2
      simpa using this
    exact h (h1 ▸ h2)

theorem processPeer_eq (st : Status) (t : Int) (rs : List PeerBandwidth) (c : ReadingCache)
    (peer : PeerInfo) :
    processPeer st t (rs, c) peer =
      (rs ++ (peerReport st c t peer).toList,
       cacheInsert c peer.publicKey (currentReadingOf st t peer)) := by
  unfold processPeer peerReport currentReadingOf
  cases h : cacheLookup c peer.publicKey with
  | none => simp [h]
  | some lastReading =>
    by_cases ht : t - lastReading.lastChecked > 0 <;> simp [h, ht]

theorem peerReport_congr_cache (st : Status) (c c2 : ReadingCache) (t : Int) (q : PeerInfo)
    (h : cacheLookup c2 q.publicKey = cacheLookup c q.publicKey) :
    peerReport st c2 t q = peerReport st c t q := by
  unfold peerReport
  rw [h]

theorem peerReport_congr_key (st : Status) (c : ReadingCache) (t : Int) (p q : PeerInfo)
    (h : q.publicKey = p.publicKey) :
    peerReport st c t q = peerReport st c t p := by
  unfold peerReport
  rw [h]

theorem currentReadingOf_congr_key (st : Status) (t : Int) (p q : PeerInfo)
    (h : q.publicKey = p.publicKey) :
    currentReadingOf st t q = currentReadingOf st t p := by
  unfold currentReadingOf
  rw [h]

theorem peerReport_key (st : Status) (c : ReadingCache) (t : Int) (q : PeerInfo)
    (r : PeerBandwidth) (h : peerReport st c t q = some r) : r.publicKey = q.publicKey := by
  simp only [peerReport] at h
  split at h
  · split at h
    · simp only [Option.some.injEq] at h
      rw [← h]
    · exact absurd h (by simp)
  · simp only [Option.some.injEq] at h
    rw [← h]

theorem foldl_reports (st : Status) (t : Int) (ps : List PeerInfo) :
    ∀ (rs : List PeerBandwidth) (c : ReadingCache),
      (ps.map PeerInfo.publicKey).Nodup →
      (ps.foldl (processPeer st t) (rs, c)).1 = rs ++ ps.filterMap (peerReport st c t) := by
  induction ps with
  | nil => intro rs c _; simp
  | cons p rest ih =>
    intro rs c hnd
    have hnd' : (rest.map PeerInfo.publicKey).Nodup := (List.nodup_cons.mp (by simpa using hnd)).2
    have hhd : p.publicKey ∉ rest.map PeerInfo.publicKey :=
      (List.nodup_cons.mp (by simpa using hnd)).1
    rw [List.foldl_cons, processPeer_eq, ih _ _ hnd']
    have hcongr :
        rest.filterMap (peerReport st (cacheInsert c p.publicKey (currentReadingOf st t p)) t)
          = rest.filterMap (peerReport st c t) := by
      apply List.filterMap_congr
      intro q hq
      apply peerReport_congr_cache
      rw [cacheLookup_insert]
      have hne : q.publicKey ≠ p.publicKey := by
        intro he
        exact hhd (he ▸ List.mem_map_of_mem _ hq)
      simp [hne]
    rw [hcongr]
    cases hr : peerReport st c t p <;>
      simp [List.filterMap_cons, hr, List.append_assoc]

theorem foldl_cacheLookup (st : Status) (t : Int) (ps : List PeerInfo) :
    ∀ (rs : List PeerBandwidth) (c : ReadingCache) (k : String),
      cacheLookup (ps.foldl (processPeer st t) (rs, c)).2 k =
        match ps.find? (fun q => q.publicKey == k) with
        | some q => some (currentReadingOf st t q)
        | none => cacheLookup c k := by
  induction ps with
  | nil => intro rs c k; rfl
  | cons p rest ih =>
    intro rs c k
    rw [List.foldl_cons, processPeer_eq, ih]
    by_cases hpk : p.publicKey = k
    · rw [List.find?_cons_of_pos _ (by simp [hpk])]
      cases hq : rest.find? (fun q => q.publicKey == k) with
      | some q =>
        have hqk : q.publicKey = k := by simpa using List.find?_some hq
        exact congrArg some (currentReadingOf_congr_key st t p q (hqk.trans hpk.symm))
      | none =>
        show cacheLookup (cacheInsert c p.publicKey (currentReadingOf st t p)) k =
          some (currentReadingOf st t p)
        rw [cacheLookup_insert, if_pos hpk.symm]
    · rw [List.find?_cons_of_neg _ (by simp [hpk])]
      cases hq : rest.find? (fun q => q.publicKey == k) with
      | some q => rfl
      | none =>
        show cacheLookup (cacheInsert c p.publicKey (currentReadingOf st t p)) k =
          cacheLookup c k
        rw [cacheLookup_insert, if_neg (fun he => hpk he.symm)]

theorem calculatePeerBandwidth_ok_reports (st : Status) (c : ReadingCache) (t : Int)
    (hnd : (st.peers.map PeerInfo.publicKey).Nodup) :
    (calculatePeerBandwidth (.ok st) c t).reports =
      .ok (st.peers.filterMap (peerReport st c t)) := by
  have h := foldl_reports st t st.peers [] c hnd
  simp only [calculatePeerBandwidth]
  rw [h]
  simp

theorem calculatePeerBandwidth_ok_cacheLookup (st : Status) (c : ReadingCache) (t : Int)
    (k : String) :
    cacheLookup (calculatePeerBandwidth (.ok st) c t).cache k =
      match st.peers.find? (fun q => q.publicKey == k) with
      | some q => some (currentReadingOf st t q)
      | none => none := by
  simp only [calculatePeerBandwidth]
  rw [cacheLookup_prune, foldl_cacheLookup]
  cases hq : st.peers.find? (fun q => q.publicKey == k) with
  | some q =>
    have hqmem : q ∈ st.peers := List.mem_of_find?_eq_some hq
    have hqk : q.publicKey = k := by simpa using List.find?_some hq
    have hk : k ∈ st.peers.map PeerInfo.publicKey := hqk ▸ List.mem_map_of_mem _ hqmem
    rw [if_pos hk]
  | none =>
    have hk : k ∉ st.peers.map PeerInfo.publicKey := by
      intro hk
      rcases List.mem_map.mp hk with ⟨q, hqmem, hqk⟩
      have := List.find?_eq_none.mp hq q hqmem
      simp [hqk] at this
    rw [if_neg hk]

theorem find?_self_of_nodup (ps : List PeerInfo) (p : PeerInfo)
    (hnd : (ps.map PeerInfo.publicKey).Nodup) (hp : p ∈ ps) :
    ps.find? (fun q => q.publicKey == p.publicKey) = some p := by
  induction ps with
  | nil => exact absurd hp (by simp)
  | cons a rest ih =>
    rcases List.mem_cons.mp hp with ha | hrest
    · rw [← ha]
      exact List.find?_cons_of_pos _ (by simp)
    · have hhd : a.publicKey ∉ rest.map PeerInfo.publicKey :=
        (List.nodup_cons.mp (by simpa using hnd)).1

      have hne : ¬ (a.publicKey == p.publicKey) = true := by
        simp only [beq_iff_eq]
        intro he
        exact hhd (he ▸ List.mem_map_of_mem _ hrest)
      rw [@List.find?_cons_of_neg PeerInfo (fun q => q.publicKey == p.publicKey) a rest hne]
      exact ih (List.nodup_cons.mp (by simpa using hnd)).2 hrest

theorem getPeerTraffic_of_mem (st : Status) (p : PeerInfo)
    (hnd : (st.peers.map PeerInfo.publicKey).Nodup) (hp : p ∈ st.peers) :
    getPeerTraffic (some st) p.publicKey = (p.rxBytes, p.txBytes) := by
  simp only [getPeerTraffic]
  rw [find?_self_of_nodup st.peers p hnd hp]

theorem currentReadingOf_of_mem (st : Status) (t : Int) (p : PeerInfo)
    (hnd : (st.peers.map PeerInfo.publicKey).Nodup) (hp : p ∈ st.peers) :
    currentReadingOf st t p =
      { bytesReceived := p.rxBytes, bytesTransmitted := p.txBytes, lastChecked := t } := by
  simp only [currentReadingOf, getPeerTraffic_of_mem st p hnd hp]

/-- The report emitted for a peer that has a cached prior reading whose
timestamp strictly precedes the cycle timestamp, written with the source's
negative-delta replacement explicit. -/
theorem peerReport_of_prior (st : Status) (c : ReadingCache) (t : Int) (p : PeerInfo)
    (lastReading : PeerReading)
    (hnd : (st.peers.map PeerInfo.publicKey).Nodup) (hp : p ∈ st.peers)
    (hlast : cacheLookup c p.publicKey = some lastReading)
    (htime : lastReading.lastChecked < t) :
    peerReport st c t p =
      some { publicKey := p.publicKey
             bytesIn := (((if p.rxBytes - lastReading.bytesReceived < 0 then p.rxBytes
                           else p.rxBytes - lastReading.bytesReceived) : Int) : Rat) / (1024 * 1024)
             bytesOut := (((if p.txBytes - lastReading.bytesTransmitted < 0 then p.txBytes
                            else p.txBytes - lastReading.bytesTransmitted) : Int) : Rat) / (1024 * 1024) } := by
  simp only [peerReport, hlast, getPeerTraffic_of_mem st p hnd hp]
  rw [if_pos (by omega : t - lastReading.lastChecked > 0)]

theorem peerReport_none_of_stale (st : Status) (c : ReadingCache) (t : Int) (p : PeerInfo)
    (lastReading : PeerReading)
    (hlast : cacheLookup c p.publicKey = some lastReading)
    (htime : t ≤ lastReading.lastChecked) :
    peerReport st c t p = none := by
  simp only [peerReport, hlast]
  rw [if_neg (by omega : ¬ t - lastReading.lastChecked > 0)]

theorem peerReport_of_first (st : Status) (c : ReadingCache) (t : Int) (p : PeerInfo)
    (hfirst : cacheLookup c p.publicKey = none) :
    peerReport st c t p = some { publicKey := p.publicKey, bytesIn := 0, bytesOut := 0 } := by
  simp only [peerReport, hfirst]

/-- Every report of a cycle whose public key is `p`'s carries exactly the
values `peerReport` computes for `p` (reports only depend on their peer's
public key, so colliding keys collapse to the same value). -/
theorem report_values_of_key (st : Status) (c : ReadingCache) (t : Int) (p : PeerInfo)
    (reports : List PeerBandwidth) (target : PeerBandwidth)
    (hnd : (st.peers.map PeerInfo.publicKey).Nodup)
    (hreports : (calculatePeerBandwidth (.ok st) c t).reports = .ok reports)
    (htarget : peerReport st c t p = some target) :
    ∀ r ∈ reports, r.publicKey = p.publicKey → r = target := by
  intro r hr hkey
  rw [calculatePeerBandwidth_ok_reports st c t hnd] at hreports
  have hreq : reports = st.peers.filterMap (peerReport st c t) :=
    (Except.ok.injEq _ _).mp hreports.symm
  rcases List.mem_filterMap.mp (hreq ▸ hr) with ⟨q, hqmem, hq⟩
  have hqk : q.publicKey = p.publicKey := by
    rw [← peerReport_key st c t q r hq, hkey]
  have hsome : some r = some target := by
    rw [← hq, peerReport_congr_key st c t p q hqk, htarget]
  exact Option.some_inj.mp hsome

theorem report_mem_of_some (st : Status) (c : ReadingCache) (t : Int) (p : PeerInfo)
    (reports : List PeerBandwidth) (target : PeerBandwidth)
    (hnd : (st.peers.map PeerInfo.publicKey).Nodup) (hp : p ∈ st.peers)
    (hreports : (calculatePeerBandwidth (.ok st) c t).reports = .ok reports)
    (htarget : peerReport st c t p = some target) :
    target ∈ reports := by
  rw [calculatePeerBandwidth_ok_reports st c t hnd] at hreports
  have hreq : reports = st.peers.filterMap (peerReport st c t) :=
    (Except.ok.injEq _ _).mp hreports.symm
  rw [hreq]
  exact List.mem_filterMap.mpr ⟨p, hp, htarget⟩

theorem getPeerTraffic_nonneg (st : Status)
    (hpos : ∀ q ∈ st.peers, 0 ≤ q.rxBytes ∧ 0 ≤ q.txBytes) (k : String) :
    0 ≤ (getPeerTraffic (some st) k).1 ∧ 0 ≤ (getPeerTraffic (some st) k).2 := by
  simp only [getPeerTraffic]
  cases hq : st.peers.find? (fun p => p.publicKey == k) with
  | some p => exact hpos p (List.mem_of_find?_eq_some hq)
  | none => exact ⟨le_refl 0, le_refl 0⟩

theorem peerReport_nonneg (st : Status) (c : ReadingCache) (t : Int) (q : PeerInfo)
    (r : PeerBandwidth)
    (hpos : ∀ x ∈ st.peers, 0 ≤ x.rxBytes ∧ 0 ≤ x.txBytes)
    (h : peerReport st c t q = some r) : 0 ≤ r.bytesIn ∧ 0 ≤ r.bytesOut := by
  have htr := getPeerTraffic_nonneg st hpos q.publicKey
  simp only [peerReport] at h
  split at h
  · split at h
    · rw [← Option.some_inj.mp h]
      constructor
      · apply div_nonneg _ (by norm_num)
        rw [Int.cast_nonneg]
        split
        · exact htr.1
        · omega
      · apply div_nonneg _ (by norm_num)
        rw [Int.cast_nonneg]
        split
        · exact htr.2
        · omega
    · exact absurd h (by simp)
  · rw [← Option.some_inj.mp h]
    exact ⟨le_refl 0, le_refl 0⟩

theorem foldl_reports_nonneg (st : Status) (t : Int)
    (hpos : ∀ x ∈ st.peers, 0 ≤ x.rxBytes ∧ 0 ≤ x.txBytes) (ps : List PeerInfo) :
    ∀ (rs : List PeerBandwidth) (c : ReadingCache),
      (∀ r ∈ rs, 0 ≤ r.bytesIn ∧ 0 ≤ r.bytesOut) →
      ∀ r ∈ (ps.foldl (processPeer st t) (rs, c)).1, 0 ≤ r.bytesIn ∧ 0 ≤ r.bytesOut := by
  induction ps with
  | nil => exact fun rs c hrs r hr => hrs r hr
  | cons p rest ih =>
    intro rs c hrs
    rw [List.foldl_cons, processPeer_eq]
    apply ih
    intro r hr
    rcases List.mem_append.mp hr with h1 | h2
    · exact hrs r h1
    · cases hrep : peerReport st c t p with
      | none => rw [hrep] at h2; exact absurd h2 (by simp)
      | some x =>
        rw [hrep] at h2
        have hx : r = x := by simpa using h2
        exact hx ▸ peerReport_nonneg st c t p x hpos hrep

/-- C1: for a cycle over a snapshot with distinct peer keys, a peer with a
cached prior reading whose timestamp strictly precedes the cycle time, and
monotonically non-decreased counters, the cycle emits the report with
deltas exactly `(current - prior) / 1,048,576`, and every report carrying
that public key has exactly those values. -/
theorem bandwidth_monotone_exact
    (st : Status) (c : ReadingCache) (t : Int) (p : PeerInfo) (lastReading : PeerReading)
    (hnd : (st.peers.map PeerInfo.publicKey).Nodup)
    (hp : p ∈ st.peers)
    (hlast : cacheLookup c p.publicKey = some lastReading)
    (htime : lastReading.lastChecked < t)
    (hrx : lastReading.bytesReceived ≤ p.rxBytes)
    (htx : lastReading.bytesTransmitted ≤ p.txBytes) :
    ∃ reports, (calculatePeerBandwidth (.ok st) c t).reports = .ok reports ∧
      ({ publicKey := p.publicKey
         bytesIn := ((p.rxBytes - lastReading.bytesReceived : Int) : Rat) / 1048576
         bytesOut := ((p.txBytes - lastReading.bytesTransmitted : Int) : Rat) / 1048576 } :
        PeerBandwidth) ∈ reports ∧
      ∀ r ∈ reports, r.publicKey = p.publicKey →
        r.bytesIn = ((p.rxBytes - lastReading.bytesReceived : Int) : Rat) / 1048576 ∧
        r.bytesOut = ((p.txBytes - lastReading.bytesTransmitted : Int) : Rat) / 1048576 := by
  have h20 : (1024 * 1024 : Rat) = 1048576 := by norm_num
  have htarget : peerReport st c t p =
      some { publicKey := p.publicKey
             bytesIn := ((p.rxBytes - lastReading.bytesReceived : Int) : Rat) / 1048576
             bytesOut := ((p.txBytes - lastReading.bytesTransmitted : Int) : Rat) / 1048576 } := by
    rw [peerReport_of_prior st c t p lastReading hnd hp hlast htime,
      if_neg (by omega : ¬ p.rxBytes - lastReading.bytesReceived < 0),
      if_neg (by omega : ¬ p.txBytes - lastReading.bytesTransmitted < 0), h20]
  refine ⟨st.peers.filterMap (peerReport st c t),
    calculatePeerBandwidth_ok_reports st c t hnd,
    List.mem_filterMap.mpr ⟨p, hp, htarget⟩, ?_⟩
  intro r hr hkey
  have hrt := report_values_of_key st c t p _ _ hnd
    (calculatePeerBandwidth_ok_reports st c t hnd) htarget r hr hkey
  rw [hrt]
  exact ⟨rfl, rfl⟩

/-- C2: for a peer with a cached prior reading, when a current counter is
strictly below the prior one, the emitted delta for that counter is the
current absolute counter value in MB, while a counter that did not decrease
is reported as its true delta. -/
theorem bandwidth_reset_absolute
    (st : Status) (c : ReadingCache) (t : Int) (p : PeerInfo) (lastReading : PeerReading)
    (hnd : (st.peers.map PeerInfo.publicKey).Nodup)
    (hp : p ∈ st.peers)
    (hlast : cacheLookup c p.publicKey = some lastReading)
    (htime : lastReading.lastChecked < t) :
    ∃ reports, (calculatePeerBandwidth (.ok st) c t).reports = .ok reports ∧
      (∃ r ∈ reports, r.publicKey = p.publicKey) ∧
      ∀ r ∈ reports, r.publicKey = p.publicKey →
        (p.rxBytes < lastReading.bytesReceived →
          r.bytesIn = (p.rxBytes : Rat) / 1048576 ∧
          (lastReading.bytesTransmitted ≤ p.txBytes →
            r.bytesOut = ((p.txBytes - lastReading.bytesTransmitted : Int) : Rat) / 1048576)) ∧
        (p.txBytes < lastReading.bytesTransmitted →
          r.bytesOut = (p.txBytes : Rat) / 1048576 ∧
          (lastReading.bytesReceived ≤ p.rxBytes →
            r.bytesIn = ((p.rxBytes - lastReading.bytesReceived : Int) : Rat) / 1048576)) := by
  have h20 : (1024 * 1024 : Rat) = 1048576 := by norm_num
  have htarget := peerReport_of_prior st c t p lastReading hnd hp hlast htime
  refine ⟨st.peers.filterMap (peerReport st c t),
    calculatePeerBandwidth_ok_reports st c t hnd,
    ⟨_, List.mem_filterMap.mpr ⟨p, hp, htarget⟩, rfl⟩, ?_⟩
  intro r hr hkey
  have hrt := report_values_of_key st c t p _ _ hnd
    (calculatePeerBandwidth_ok_reports st c t hnd) htarget r hr hkey
  rw [hrt]
  constructor
  · intro hrxlt
    constructor
    · show (((if p.rxBytes - lastReading.bytesReceived < 0 then p.rxBytes
          else p.rxBytes - lastReading.bytesReceived) : Int) : Rat) / (1024 * 1024) = _
      rw [if_pos (by omega : p.rxBytes - lastReading.bytesReceived < 0), h20]
    · intro htxle
      show (((if p.txBytes - lastReading.bytesTransmitted < 0 then p.txBytes
          else p.txBytes - lastReading.bytesTransmitted) : Int) : Rat) / (1024 * 1024) = _
      rw [if_neg (by omega : ¬ p.txBytes - lastReading.bytesTransmitted < 0), h20]
  · intro htxlt
    constructor
    · show (((if p.txBytes - lastReading.bytesTransmitted < 0 then p.txBytes
          else p.txBytes - lastReading.bytesTransmitted) : Int) : Rat) / (1024 * 1024) = _
      rw [if_pos (by omega : p.txBytes - lastReading.bytesTransmitted < 0), h20]
    · intro hrxle
      show (((if p.rxBytes - lastReading.bytesReceived < 0 then p.rxBytes
          else p.rxBytes - lastReading.bytesReceived) : Int) : Rat) / (1024 * 1024) = _
      rw [if_neg (by omega : ¬ p.rxBytes - lastReading.bytesReceived < 0), h20]

/-- C3: a peer present in the snapshot with no cached prior reading yields
the zero-delta report, and afterwards the cache holds its current counters
and the cycle timestamp under its public key. -/
theorem first_seen_zero_report
    (st : Status) (c : ReadingCache) (t : Int) (p : PeerInfo)
    (hnd : (st.peers.map PeerInfo.publicKey).Nodup)
    (hp : p ∈ st.peers)
    (hfirst : cacheLookup c p.publicKey = none) :
    ∃ reports, (calculatePeerBandwidth (.ok st) c t).reports = .ok reports ∧
      ({ publicKey := p.publicKey, bytesIn := 0, bytesOut := 0 } : PeerBandwidth) ∈ reports ∧
      cacheLookup (calculatePeerBandwidth (.ok st) c t).cache p.publicKey =
        some { bytesReceived := p.rxBytes, bytesTransmitted := p.txBytes, lastChecked := t } := by
  refine ⟨st.peers.filterMap (peerReport st c t),
    calculatePeerBandwidth_ok_reports st c t hnd,
    List.mem_filterMap.mpr ⟨p, hp, peerReport_of_first st c t p hfirst⟩, ?_⟩
  rw [calculatePeerBandwidth_ok_cacheLookup, find?_self_of_nodup st.peers p hnd hp]
  exact congrArg some (currentReadingOf_of_mem st t p hnd hp)

/-- C4: after a successful cycle the cache holds a reading for a public key
exactly when that key belongs to the cycle's snapshot. -/
theorem cache_keys_eq_snapshot (st : Status) (c : ReadingCache) (t : Int) (k : String) :
    (cacheLookup (calculatePeerBandwidth (.ok st) c t).cache k).isSome = true ↔
      k ∈ st.peers.map PeerInfo.publicKey := by
  rw [calculatePeerBandwidth_ok_cacheLookup]
  cases hq : st.peers.find? (fun q => q.publicKey == k) with
  | some q =>
    simp only [Option.isSome_some, true_iff]
    have hqk : q.publicKey = k := by simpa using List.find?_some hq
    exact hqk ▸ List.mem_map_of_mem _ (List.mem_of_find?_eq_some hq)
  | none =>
    simp only [Option.isSome_none, Bool.false_eq_true, false_iff]
    intro hk
    rcases List.mem_map.mp hk with ⟨q, hqmem, hqk⟩
    have := List.find?_eq_none.mp hq q hqmem
    simp [hqk] at this

/-- C5: if every peer of the snapshot carries non-negative counters, every
emitted report has non-negative byte deltas. -/
theorem reports_never_negative (st : Status) (c : ReadingCache) (t : Int)
    (hpos : ∀ q ∈ st.peers, 0 ≤ q.rxBytes ∧ 0 ≤ q.txBytes)
    (reports : List PeerBandwidth)
    (hreports : (calculatePeerBandwidth (.ok st) c t).reports = .ok reports) :
    ∀ r ∈ reports, 0 ≤ r.bytesIn ∧ 0 ≤ r.bytesOut := by
  have hreq : reports = (st.peers.foldl (processPeer st t) ([], c)).1 := by
    simpa [calculatePeerBandwidth] using hreports.symm
  rw [hreq]
  exact foldl_reports_nonneg st t hpos st.peers [] c (fun r hr => absurd hr (by simp))

/-- C6: a cycle whose snapshot query fails returns the provider error,
leaves the reading cache exactly as it was, and performs no notification. -/
theorem provider_error_no_mutation (e : String) (c : ReadingCache) (t : Int) :
    calculatePeerBandwidth (.error e) c t =
      { reports := .error ("failed to get Tailscale status: " ++ e),
        cache := c, notifyCalls := [] } := rfl

/-- C8: `Client.Status()` can return a status with `loggedIn = false` and no
self info (it does exactly that when the tailscale command fails), and on
that value `handleStatus` dereferences the nil `Self` pointer and faults
instead of producing the SelfStatus view or a 500. -/
theorem handleStatus_nil_self_faults :
    handleStatus (.ok statusOnCommandFailure) = .nilDeref ∧
    statusOnCommandFailure.loggedIn = false ∧
    statusOnCommandFailure.self = none :=
  ⟨rfl, rfl, rfl⟩

/-- C10: a peer with a cached prior reading produces a report only when the
cycle timestamp strictly exceeds the cached one; at an equal or earlier
timestamp no report carries its key, yet its cache entry is overwritten
with the current counters and timestamp. -/
theorem stale_timestamp_no_report
    (st : Status) (c : ReadingCache) (t : Int) (p : PeerInfo) (lastReading : PeerReading)
    (hnd : (st.peers.map PeerInfo.publicKey).Nodup)
    (hp : p ∈ st.peers)
    (hlast : cacheLookup c p.publicKey = some lastReading)
    (htime : t ≤ lastReading.lastChecked) :
    ∃ reports, (calculatePeerBandwidth (.ok st) c t).reports = .ok reports ∧
      (∀ r ∈ reports, r.publicKey ≠ p.publicKey) ∧
      cacheLookup (calculatePeerBandwidth (.ok st) c t).cache p.publicKey =
        some { bytesReceived := p.rxBytes, bytesTransmitted := p.txBytes, lastChecked := t } := by
  refine ⟨st.peers.filterMap (peerReport st c t),
    calculatePeerBandwidth_ok_reports st c t hnd, ?_, ?_⟩
  · intro r hr hkey
    rcases List.mem_filterMap.mp hr with ⟨q, hqmem, hq⟩
    have hqk : q.publicKey = p.publicKey := by
      rw [← peerReport_key st c t q r hq, hkey]
    rw [peerReport_congr_key st c t p q hqk,
      peerReport_none_of_stale st c t p lastReading hlast htime] at hq
    exact absurd hq (by simp)
  · rw [calculatePeerBandwidth_ok_cacheLookup, find?_self_of_nodup st.peers p hnd hp]
    exact congrArg some (currentReadingOf_of_mem st t p hnd hp)

/-- A snapshot containing a single never-before-seen peer, used to exhibit
a cycle that newly baselines a peer. -/
def wPeerN : PeerInfo :=
  { publicKey := "pkN", hostname := "node-n", tailscaleIPs := "100.64.0.9",
    allowedIPs := [], online := true, rxBytes := 10, txBytes := 20 }

def wStatusN : Status := { loggedIn := true, self := none, peers := [wPeerN] }

/-- C7 counterexample: a concrete cycle that newly baselines peer `pkN`
(the cache starts empty and ends holding `pkN`) while issuing no
peer-change notification POST at all — the claim requires one. -/
theorem no_notify_on_baseline_counterexample :
    (calculatePeerBandwidth (.ok wStatusN) [] 0).notifyCalls = [] ∧
    cacheLookup ([] : ReadingCache) "pkN" = none ∧
    cacheLookup (calculatePeerBandwidth (.ok wStatusN) [] 0).cache "pkN" =
      some { bytesReceived := 10, bytesTransmitted := 20, lastChecked := 0 } := by
  refine ⟨rfl, rfl, ?_⟩
  decide

/-- C7 (amended): `notifyPeerChange`, when invoked with a non-empty
configured notify URL, POSTs `{action, publicKey}` to it (and is a no-op on
an empty URL), but the accounting cycle never invokes it: no cycle issues
any peer-change notification, regardless of baselining or pruning. -/
theorem cycle_never_notifies :
    (∀ (status : Except String Status) (c : ReadingCache) (t : Int),
      (calculatePeerBandwidth status c t).notifyCalls = []) ∧
    (∀ url action publicKey, url ≠ "" →
      notifyPeerChange url action publicKey =
        some { url := url, action := action, publicKey := publicKey }) ∧
    (∀ action publicKey, notifyPeerChange "" action publicKey = none) := by
  refine ⟨?_, ?_, ?_⟩
  · intro status c t
    cases status <;> rfl
  · intro url action publicKey h
    simp [notifyPeerChange, h]
  · intro action publicKey
    rfl

theorem cycle_never_notifies_witness :
    (calculatePeerBandwidth (.ok statusOnCommandFailure) [] 0).notifyCalls = [] ∧
    notifyPeerChange "http://pangolin/notify" "add" "pkW" =
      some { url := "http://pangolin/notify", action := "add", publicKey := "pkW" } :=
  ⟨cycle_never_notifies.1 (.ok statusOnCommandFailure) [] 0,
   cycle_never_notifies.2.1 "http://pangolin/notify" "add" "pkW" (by decide)⟩

/-- C9: the remote-config loop exits only with a non-empty auth key; each
failed fetch is followed by exactly one 5-second sleep before the next
attempt; any number of consecutive failures leaves the loop retrying with
attempt/sleep pairs and no fatal exit; and three consecutive failed fetches
followed by a successful one produce exactly three 5-second-spaced retries
and then proceed with the fetched config. -/
theorem config_retry_loop_spec :
    (∀ (outcomes : List (Except Unit TailscaleConfig)) (cfg : TailscaleConfig),
        (configRetryLoop outcomes).2 = some cfg → cfg.authKey ≠ "") ∧
    (∀ rest, configRetryLoop (Except.error () :: rest) =
        (LoopEvent.fetchAttempt :: LoopEvent.sleepSeconds 5 :: (configRetryLoop rest).1,
         (configRetryLoop rest).2)) ∧
    (∀ n : Nat, configRetryLoop (List.replicate n (Except.error ())) =
        ((List.replicate n [LoopEvent.fetchAttempt, LoopEvent.sleepSeconds 5]).flatten, none)) ∧
    configRetryLoop [Except.error (), Except.error (), Except.error (),
        Except.ok { authKey := "tskey-auth-remote", controlURL := "", hostname := "",
                    exitNode := "", acceptRoutes := false }] =
      ([LoopEvent.fetchAttempt, LoopEvent.sleepSeconds 5,
        LoopEvent.fetchAttempt, LoopEvent.sleepSeconds 5,
        LoopEvent.fetchAttempt, LoopEvent.sleepSeconds 5,
        LoopEvent.fetchAttempt],
       some { authKey := "tskey-auth-remote", controlURL := "", hostname := "",
              exitNode := "", acceptRoutes := false }) := by
  refine ⟨?_, ?_, ?_, ?_⟩
  · intro outcomes
    induction outcomes with
    | nil => intro cfg h; exact absurd h (by simp [configRetryLoop])
    | cons o rest ih =>
      intro cfg h
      match o with
      | .error _ => exact ih cfg h
      | .ok c0 =>
        by_cases hk : c0.authKey = ""
        · have h2 : (configRetryLoop (Except.ok c0 :: rest)).2 = (configRetryLoop rest).2 := by
            simp [configRetryLoop, hk]
          rw [h2] at h
          exact ih cfg h
        · have h2 : (configRetryLoop (Except.ok c0 :: rest)).2 = some c0 := by
            simp [configRetryLoop, hk]
          rw [h2] at h
          exact (Option.some_inj.mp h) ▸ hk
  · intro rest
    rfl
  · intro n
    induction n with
    | zero => rfl
    | succ m ih =>
      rw [List.replicate_succ, List.replicate_succ, List.flatten_cons]
      show (LoopEvent.fetchAttempt :: LoopEvent.sleepSeconds 5 ::
              (configRetryLoop (List.replicate m (Except.error ()))).1,
            (configRetryLoop (List.replicate m (Except.error ()))).2) = _
      rw [ih]
      rfl
  · decide

theorem config_retry_loop_spec_witness :
    ({ authKey := "tskey-auth-remote", controlURL := "", hostname := "", exitNode := "",
       acceptRoutes := false } : TailscaleConfig).authKey ≠ "" :=
  config_retry_loop_spec.1
    [Except.ok { authKey := "tskey-auth-remote", controlURL := "", hostname := "",
                 exitNode := "", acceptRoutes := false }]
    { authKey := "tskey-auth-remote", controlURL := "", hostname := "", exitNode := "",
      acceptRoutes := false } (by decide)

/-- A peer whose counters both increased since the cached prior reading. -/
def wPeerA : PeerInfo :=
  { publicKey := "pkA", hostname := "node-a", tailscaleIPs := "100.64.0.1",
    allowedIPs := [], online := true, rxBytes := 2097152, txBytes := 3145728 }

def wStatusA : Status := { loggedIn := true, self := none, peers := [wPeerA] }

def wLastA : PeerReading :=
  { bytesReceived := 1048576, bytesTransmitted := 1048576, lastChecked := 5 }

def wCacheA : ReadingCache := [("pkA", wLastA)]

theorem bandwidth_monotone_exact_witness :
    ∃ reports, (calculatePeerBandwidth (.ok wStatusA) wCacheA 15).reports = .ok reports ∧
      ({ publicKey := wPeerA.publicKey
         bytesIn := ((wPeerA.rxBytes - wLastA.bytesReceived : Int) : Rat) / 1048576
         bytesOut := ((wPeerA.txBytes - wLastA.bytesTransmitted : Int) : Rat) / 1048576 } :
        PeerBandwidth) ∈ reports ∧
      ∀ r ∈ reports, r.publicKey = wPeerA.publicKey →
        r.bytesIn = ((wPeerA.rxBytes - wLastA.bytesReceived : Int) : Rat) / 1048576 ∧
        r.bytesOut = ((wPeerA.txBytes - wLastA.bytesTransmitted : Int) : Rat) / 1048576 :=
  bandwidth_monotone_exact wStatusA wCacheA 15 wPeerA wLastA
    (by decide) (by decide) (by decide) (by decide) (by decide) (by decide)

/-- A peer whose rx counter reset (current below prior) while tx advanced. -/
def wPeerB : PeerInfo :=
  { publicKey := "pkB", hostname := "node-b", tailscaleIPs := "100.64.0.2",
    allowedIPs := [], online := true, rxBytes := 524288, txBytes := 3145728 }

def wStatusB : Status := { loggedIn := true, self := none, peers := [wPeerB] }

def wLastB : PeerReading :=
  { bytesReceived := 1048576, bytesTransmitted := 1048576, lastChecked := 5 }

def wCacheB : ReadingCache := [("pkB", wLastB)]

theorem bandwidth_reset_absolute_witness :
    ∃ reports, (calculatePeerBandwidth (.ok wStatusB) wCacheB 15).reports = .ok reports ∧
      (∃ r ∈ reports, r.publicKey = wPeerB.publicKey) ∧
      ∀ r ∈ reports, r.publicKey = wPeerB.publicKey →
        (wPeerB.rxBytes < wLastB.bytesReceived →
          r.bytesIn = (wPeerB.rxBytes : Rat) / 1048576 ∧
          (wLastB.bytesTransmitted ≤ wPeerB.txBytes →
            r.bytesOut = ((wPeerB.txBytes - wLastB.bytesTransmitted : Int) : Rat) / 1048576)) ∧
        (wPeerB.txBytes < wLastB.bytesTransmitted →
          r.bytesOut = (wPeerB.txBytes : Rat) / 1048576 ∧
          (wLastB.bytesReceived ≤ wPeerB.rxBytes →
            r.bytesIn = ((wPeerB.rxBytes - wLastB.bytesReceived : Int) : Rat) / 1048576)) :=
  bandwidth_reset_absolute wStatusB wCacheB 15 wPeerB wLastB
    (by decide) (by decide) (by decide) (by decide)

/-- A peer observed for the first time (empty cache). -/
def wPeerC : PeerInfo :=
  { publicKey := "pkC", hostname := "node-c", tailscaleIPs := "100.64.0.3",
    allowedIPs := [], online := true, rxBytes := 4096, txBytes := 8192 }

def wStatusC : Status := { loggedIn := true, self := none, peers := [wPeerC] }

theorem first_seen_zero_report_witness :
    ∃ reports, (calculatePeerBandwidth (.ok wStatusC) [] 7).reports = .ok reports ∧
      ({ publicKey := wPeerC.publicKey, bytesIn := 0, bytesOut := 0 } : PeerBandwidth) ∈ reports ∧
      cacheLookup (calculatePeerBandwidth (.ok wStatusC) [] 7).cache wPeerC.publicKey =
        some { bytesReceived := wPeerC.rxBytes, bytesTransmitted := wPeerC.txBytes,
               lastChecked := 7 } :=
  first_seen_zero_report wStatusC [] 7 wPeerC (by decide) (by decide) (by decide)

theorem reports_never_negative_witness :
    0 ≤ ({ publicKey := "pkC", bytesIn := 0, bytesOut := 0 } : PeerBandwidth).bytesIn ∧
    0 ≤ ({ publicKey := "pkC", bytesIn := 0, bytesOut := 0 } : PeerBandwidth).bytesOut :=
  reports_never_negative wStatusC [] 7 (by decide) _ rfl
    { publicKey := "pkC", bytesIn := 0, bytesOut := 0 } (by decide)

/-- A peer whose cached reading carries the same timestamp as the cycle. -/
def wPeerD : PeerInfo :=
  { publicKey := "pkD", hostname := "node-d", tailscaleIPs := "100.64.0.4",
    allowedIPs := [], online := true, rxBytes := 555, txBytes := 777 }

def wStatusD : Status := { loggedIn := true, self := none, peers := [wPeerD] }

def wLastD : PeerReading :=
  { bytesReceived := 1, bytesTransmitted := 2, lastChecked := 100 }

def wCacheD : ReadingCache := [("pkD", wLastD)]

theorem stale_timestamp_no_report_witness :
    ∃ reports, (calculatePeerBandwidth (.ok wStatusD) wCacheD 100).reports = .ok reports ∧
      (∀ r ∈ reports, r.publicKey ≠ wPeerD.publicKey) ∧
      cacheLookup (calculatePeerBandwidth (.ok wStatusD) wCacheD 100).cache wPeerD.publicKey =
        some { bytesReceived := wPeerD.rxBytes, bytesTransmitted := wPeerD.txBytes,
               lastChecked := 100 } :=
  stale_timestamp_no_report wStatusD wCacheD 100 wPeerD wLastD
    (by decide) (by decide) (by decide) (by decide)

end Gerbil
